import Mathlib

/-!
Verification development for the blocks-store querier and ruler ownership logic
of the mimir repository.

Conventions of the embedding:
* Go strings are Lean `String`s; where a function inspects the characters of a
  string we work on `String.data` (its list of characters), and where Go hashes
  the raw bytes of a string we encode the characters to UTF-8 byte values.
* Go `uint64` arithmetic on shard indexes/counts is `Nat` arithmetic (the Go
  code never overflows: it only takes `%` of its inputs), `int64` millisecond
  timestamps are `Int`, and the `int32` chunk counter is an `Int` that is
  wrapped to the `int32` range exactly where the Go code casts.
* Calls into external collaborators (the store-gateway set, the block finder,
  the consistency checker, the per-query limiter and the gRPC streams) are
  modelled as explicit functional parameters; the concurrent fan-out of
  `fetchSeriesFromStores` is serialized client-by-client, which realises one
  schedule of the Go `errgroup` (the shared accumulators are mutex-guarded and
  appended to only once per goroutine, so the properties proved here are
  schedule-independent).
-/

/-- Block identifiers (`ulid.ULID` in Go) are opaque; we model them as `Nat`. -/
abbrev ULID := Nat

/-- Store-gateway addresses (`client.RemoteAddress()`) are opaque strings. -/
abbrev Addr := String

/-- The fields of `bucketindex.Block` used by the querier code under study. -/
structure Block where
  id : ULID
  CompactorShardID : String
  uploadedAt : Int
deriving DecidableEq, Repr

/-- Decimal digit value of a character, `none` for a non-digit. -/
def charDigit? (c : Char) : Option Nat :=
  if '0' ≤ c ∧ c ≤ '9' then some (c.toNat - 48) else none

/-- Parse a non-empty all-digit character list as a decimal `Nat`. -/
def decimalNat? (cs : List Char) : Option Nat :=
  if cs.isEmpty then none
  else
    cs.foldl
      (fun acc c =>
        match acc, charDigit? c with
        | some n, some d => some (n * 10 + d)
        | _, _ => none)
      (some 0)

/-- Modelled from the spec: `sharding.ParseShardIDLabelValue` (the
`pkg/storage/sharding` package is not part of the sources under study).  A
compactor shard ID is an `i_of_n` pair naming one of `n` disjoint shards, so a
label value parses iff it has the shape `i_of_n` with `i` and `n` decimal
numbers and `0 ≤ i < n`. -/
def parseShardIDLabelValue (s : String) : Option (Nat × Nat) :=
  match s.data.splitOn '_' with
  | [iStr, ofStr, nStr] =>
    if ofStr = ['o', 'f'] then
      match decimalNat? iStr, decimalNat? nStr with
      | some i, some n => if i < n then some (i, n) else none
      | _, _ => none
    else none
  | _ => none

/-- `canBlockWithCompactorShardIndexContainQueryShard` from
`blocks_store_queryable.go`: decides whether a block produced by compactor
shard `compactorShardIndex_of_compactorShardCount` may contain series of query
shard `queryShardIndex_of_queryShardCount`, and whether the two shard counts
divide one another (in which case the optimization applies). -/
def canBlockWithCompactorShardIndexContainQueryShard
    (queryShardIndex queryShardCount compactorShardIndex compactorShardCount : Nat) :
    Bool × Bool :=
  if queryShardCount ≥ compactorShardCount ∧ queryShardCount % compactorShardCount = 0 then
    (decide (compactorShardIndex = queryShardIndex % compactorShardCount), true)
  else if compactorShardCount ≥ queryShardCount ∧ compactorShardCount % queryShardCount = 0 then
    (decide (queryShardIndex = compactorShardIndex % queryShardCount), true)
  else
    (true, false)

/-- `filterBlocksByShard` from `blocks_store_queryable.go`: drop the blocks
that can be proven not to contain the query shard, returning the kept blocks
and the number of "incompatible" blocks (parsable compactor shard ID whose
count and the query shard count do not divide each other).  The Go in-place
splice loop walks the slice left to right, keeping or removing one element at
a time; this recursion performs the same element-wise decisions. -/
def filterBlocksByShard (blocks : List Block) (queryShardIndex queryShardCount : Nat) :
    List Block × Nat :=
  match blocks with
  | [] => ([], 0)
  | b :: rest =>
    let tailRes := filterBlocksByShard rest queryShardIndex queryShardCount
    if b.CompactorShardID = "" then (b :: tailRes.1, tailRes.2)
    else
      match parseShardIDLabelValue b.CompactorShardID with
      | none => (b :: tailRes.1, tailRes.2)
      | some (compactorShardIndex, compactorShardCount) =>
        let rd := canBlockWithCompactorShardIndexContainQueryShard
          queryShardIndex queryShardCount compactorShardIndex compactorShardCount
        let incompatibleBlocks := if rd.2 then tailRes.2 else tailRes.2 + 1
        if rd.1 then (b :: tailRes.1, incompatibleBlocks) else (tailRes.1, incompatibleBlocks)

/-- The keep rule exactly as claim C1 words it, for a block whose compactor
shard ID parses as `ci_of_cc`. -/
def claimKeepRule (qi qc ci cc : Nat) : Prop :=
  (qc % cc = 0 ∧ qi % cc = ci) ∨
  (cc % qc = 0 ∧ ci % qc = qi) ∨
  (¬ qc % cc = 0 ∧ ¬ cc % qc = 0)

instance (qi qc ci cc : Nat) : Decidable (claimKeepRule qi qc ci cc) := by
  unfold claimKeepRule; infer_instance

/-- Claim C1's characterisation of which blocks are kept: parse failures and
absent shard IDs are kept, otherwise the keep rule decides. -/
def claimKeepsBlock (qi qc : Nat) (b : Block) : Bool :=
  match parseShardIDLabelValue b.CompactorShardID with
  | none => true
  | some (ci, cc) => decide (claimKeepRule qi qc ci cc)

/-- Claim C1's characterisation of which blocks are counted incompatible:
those with a parsable shard ID whose count and the query shard count do not
divide each other in either direction. -/
def claimIncompatible (qi qc : Nat) (b : Block) : Bool :=
  match parseShardIDLabelValue b.CompactorShardID with
  | none => false
  | some (_, cc) => decide (¬ qc % cc = 0 ∧ ¬ cc % qc = 0)

/-- Errors surfaced by the querier.  Collaborator errors carry opaque payloads;
`maxChunksLimit` is the per-tenant `max-chunks-per-query` limit error built
from `maxChunksPerQueryLimitMsgFormat` (it names the matchers and the limit);
`limiter` covers the `queryLimiter.Add*` limit errors and `hintsUnmarshal`
the hint unmarshal/parse failures. -/
inductive GErr where
  | other (msg : String)
  | maxChunksLimit (matchersStr : String) (limit : Int)
  | limiter (callName : String)
  | hintsUnmarshal (msg : String)
deriving DecidableEq, Repr

/-- A store-gateway client (`BlocksStoreClient`), identified by the address
`RemoteAddress()` returns. -/
structure Client where
  addr : Addr
deriving DecidableEq, Repr

variable {σ : Type}

/-- The per-request mutable state of `queryWithConsistencyCheck`'s retry loop:
`remaining` blocks, the `attemptedBlocks` map (flattened to its
(block, address) pairs in insertion order), the `touchedStores` set (in
insertion order), the accumulated `resQueriedBlocks`, and the state `qstate`
of the `queryFunc` closure (the caller's accumulators). -/
structure LoopSt (σ : Type) where
  remaining : List ULID
  attempted : List (ULID × Addr)
  touched : List Addr
  resQueried : List ULID
  qstate : σ
deriving DecidableEq

/-- The exclusion map handed to `GetClientsFor`: for each block the addresses
already recorded for it in the attempted map. -/
def exclusionOf (attempted : List (ULID × Addr)) : ULID → List Addr :=
  fun blockID => (attempted.filter (fun p => p.1 = blockID)).map (fun p => p.2)

/-- The update of `attemptedBlocks` after an attempt: for every
(client, blocks) assignment and every assigned block, append the client's
address for that block. -/
def recordAttempts (attempted : List (ULID × Addr)) (clients : List (Client × List ULID)) :
    List (ULID × Addr) :=
  clients.foldl (fun acc cb => acc ++ cb.2.map (fun blockID => (blockID, cb.1.addr))) attempted

/-- The (block, address) pairs of one `GetClientsFor` response. -/
def assignmentPairs (clients : List (Client × List ULID)) : List (ULID × Addr) :=
  recordAttempts [] clients

/-- The update of the `touchedStores` set after an attempt. -/
def recordTouched (touched : List Addr) (clients : List (Client × List ULID)) : List Addr :=
  clients.foldl (fun acc cb => if cb.1.addr ∈ acc then acc else acc ++ [cb.1.addr]) touched

/-- The external collaborators of the retry loop, determinized: `getClients`
is `stores.GetClientsFor` (indexed by the attempt number, since the
store-gateway set may answer differently on each call), `query` is the
`queryFunc` closure's interaction with the store-gateways (returning the
queried-block hints and its updated accumulator state), and `check` is
`consistency.Check` with the expected blocks and deletion marks already
applied (within one request they are fixed). -/
structure StoreEnv (σ : Type) where
  getClients : Nat → List ULID → (ULID → List Addr) → Except GErr (List (Client × List ULID))
  query : Nat → List (Client × List ULID) → σ → Except GErr (List ULID × σ)
  check : List ULID → List ULID

/-- Outcome of `queryWithConsistencyCheck`.  Early empty returns record the
value observed on the stores-hit histogram; `success` records the final loop
state together with the stores-hit and refetches observations; the failure
constructors record the Go error returned and the loop state at that point. -/
inductive QccResult (σ : Type) where
  | emptyTimeRange (storesHitObserved : Nat)
  | finderError (e : GErr)
  | noBlocks (storesHitObserved : Nat)
  | success (fin : LoopSt σ) (storesHit refetches : Nat)
  | clientsError (e : GErr) (fin : LoopSt σ)
  | queryError (e : GErr) (fin : LoopSt σ)
  | consistencyFailed (missing : List ULID) (fin : LoopSt σ)

/-- `maxFetchSeriesAttempts` from `blocks_store_queryable.go`. -/
def maxFetchSeriesAttempts : Nat := 3

/-- The retry loop of `queryWithConsistencyCheck` (`for attempt := 1; attempt
<= maxFetchSeriesAttempts; attempt++`).  `fuel` counts the iterations still
allowed (`maxFetchSeriesAttempts - attempt + 1` at entry); exhausting it is
the loop exiting and returning the consistency-check-failed error over the
current remaining blocks.  A `GetClientsFor` failure on the first attempt is
returned to the caller; on a later attempt the loop breaks and returns the
same consistency-check-failed error.  A `queryFunc` error is returned
immediately.  After a successful attempt the queried blocks are accumulated,
the attempted map and touched-stores set are extended for every assignment,
and the consistency check decides between success (observing the stores-hit
and refetches metrics) and retrying on the missing blocks. -/
def queryLoop (env : StoreEnv σ) : Nat → Nat → LoopSt σ → QccResult σ
  | 0, _, s => .consistencyFailed s.remaining s
  | fuel + 1, attempt, s =>
    match env.getClients attempt s.remaining (exclusionOf s.attempted) with
    | .error e =>
      if 1 < attempt then .consistencyFailed s.remaining s else .clientsError e s
    | .ok clients =>
      match env.query attempt clients s.qstate with
      | .error e => .queryError e s
      | .ok (queriedBlocks, qstate) =>
        let resQueried := s.resQueried ++ queriedBlocks
        let attempted := recordAttempts s.attempted clients
        let touched := recordTouched s.touched clients
        let missing := env.check resQueried
        if missing.isEmpty then
          .success ⟨s.remaining, attempted, touched, resQueried, qstate⟩
            touched.length (attempt - 1)
        else
          queryLoop env fuel (attempt + 1) ⟨missing, attempted, touched, resQueried, qstate⟩

/-- The loop state at the point `queryWithConsistencyCheck` returns, when the
loop was reached at all. -/
def finalState : QccResult σ → Option (LoopSt σ)
  | .success fin _ _ => some fin
  | .clientsError _ fin => some fin
  | .queryError _ fin => some fin
  | .consistencyFailed _ fin => some fin
  | _ => none

/-- Modelled from the spec: `BlocksConsistencyChecker.Check` (the checker's
implementation is not under src/).  A block is missing iff it is expected, not
reported as queried, uploaded at least the upload grace period ago (the
consistency delay plus three sync intervals), and not carrying a deletion
mark older than the deletion grace period (half the ignore-delay). -/
def consistencyCheckModel (now uploadGracePeriod deletionGracePeriod : Int)
    (expected : List Block) (deletionMarks : List (ULID × Int)) (queried : List ULID) :
    List ULID :=
  (expected.filter (fun b =>
    decide (¬ b.id ∈ queried) &&
    decide (uploadGracePeriod ≤ now - b.uploadedAt) &&
    (match deletionMarks.lookup b.id with
     | some markedAt => decide (now - markedAt < deletionGracePeriod)
     | none => true))).map (fun b => b.id)

/-- The body of `queryWithConsistencyCheck` after the query-store-after clamp:
look up the blocks via the finder, return empty when none are known, filter
them by the query shard when one is present with a positive count, and run
the retry loop starting from all known block IDs with empty attempted map,
touched set and accumulated results. -/
def qccRest (minT maxT : Int)
    (finder : Int → Int → Except GErr (List Block × List (ULID × Int)))
    (shard : Option (Nat × Nat))
    (checkFn : List Block → List (ULID × Int) → List ULID → List ULID)
    (getClients : Nat → List ULID → (ULID → List Addr) → Except GErr (List (Client × List ULID)))
    (query : Nat → List (Client × List ULID) → Int → Int → σ → Except GErr (List ULID × σ))
    (s0 : σ) : QccResult σ :=
  match finder minT maxT with
  | .error e => .finderError e
  | .ok (knownBlocks, knownDeletionMarks) =>
    if knownBlocks.isEmpty then .noBlocks 0
    else
      let filteredBlocks :=
        match shard with
        | some (queryShardIndex, queryShardCount) =>
          if 0 < queryShardCount then
            (filterBlocksByShard knownBlocks queryShardIndex queryShardCount).1
          else knownBlocks
        | none => knownBlocks
      let env : StoreEnv σ :=
        ⟨getClients, fun attempt clients st => query attempt clients minT maxT st,
          checkFn filteredBlocks knownDeletionMarks⟩
      queryLoop env maxFetchSeriesAttempts 1
        ⟨filteredBlocks.map (fun b => b.id), [], [], [], s0⟩

/-- `queryWithConsistencyCheck` from `blocks_store_queryable.go`: when
`queryStoreAfter` is positive the query's max time is first clamped to
`min maxT (now - queryStoreAfter)`; if the clamped max time falls below the
min time the request returns empty immediately, observing 0 on the
stores-hit histogram, without consulting the finder or any store-gateway. -/
def queryWithConsistencyCheck (queryStoreAfter now minT maxT : Int)
    (finder : Int → Int → Except GErr (List Block × List (ULID × Int)))
    (shard : Option (Nat × Nat))
    (checkFn : List Block → List (ULID × Int) → List ULID → List ULID)
    (getClients : Nat → List ULID → (ULID → List Addr) → Except GErr (List (Client × List ULID)))
    (query : Nat → List (Client × List ULID) → Int → Int → σ → Except GErr (List ULID × σ))
    (s0 : σ) : QccResult σ :=
  if 0 < queryStoreAfter then
    let maxT2 := min maxT (now - queryStoreAfter)
    if maxT2 < minT then .emptyTimeRange 0
    else qccRest minT maxT2 finder shard checkFn getClients query s0
  else qccRest minT maxT finder shard checkFn getClients query s0

/-- A series received on a store-gateway stream: its labels and the byte
sizes of its chunks. -/
structure SeriesData where
  lbls : List (String × String)
  chunkSizes : List Int
deriving DecidableEq, Repr

/-- One frame of a `Series` stream: a series, a non-empty warning, a hints
frame carrying the queried block IDs, or a hints frame that fails to
unmarshal or whose block IDs fail to parse. -/
inductive SeriesFrame where
  | series (s : SeriesData)
  | warning (w : String)
  | hints (ids : List ULID)
  | badHints (msg : String)
deriving DecidableEq, Repr

/-- What one client's `Series` RPC yields: whether the stream opened, the
frames received, and whether the stream ended with a clean EOF (`cleanEnd`)
or a receive error. -/
structure StreamData where
  openOk : Bool
  frames : List SeriesFrame
  cleanEnd : Bool
deriving DecidableEq, Repr

/-- The per-request `queryLimiter` (`limiter.QueryLimiterFromContext...`),
abstracted to its accept/reject answers per call. -/
structure Limiter where
  addSeries : SeriesData → Bool
  addChunkBytes : Int → Bool
  addChunks : Nat → Bool

/-- Outcome of one client goroutine in `fetchSeriesFromStores`: a
contribution appended to the shared accumulators, a silently discarded
result (stream open failure or receive error: the goroutine returns nil and
stores nothing), or an error failing the whole fetch. -/
inductive TaskOutcome where
  | contrib (series : List SeriesData) (warns : List String) (queried : List ULID)
  | discarded
  | failed (e : GErr)
deriving DecidableEq, Repr

/-- Go `int32` wrap-around, used where the source casts chunk counts and the
left chunk limit to `int32`. -/
def wrap32 (n : Int) : Int := (n + 2147483648) % 4294967296 - 2147483648

/-- `countChunksAndBytes`: total chunk count and total chunk bytes of the
given series. -/
def countChunksAndBytes (ss : List SeriesData) : Nat × Int :=
  (ss.foldl (fun acc s => acc + s.chunkSizes.length) 0,
   ss.foldl (fun acc s => acc + s.chunkSizes.foldl (fun a c => a + c) 0) 0)

/-- The series-frame branch of the stream receive loop: run the limiter's
`AddSeries`, then (when the max-chunks limit is enabled) add the series'
chunk count to the shared atomic `int32` counter and fail with the
per-tenant max-chunks error as soon as the counter strictly exceeds the
remaining budget, then run `AddChunkBytes` and `AddChunks`.  Returns the new
counter value and the error, if any. -/
def processSeriesFrame (lim : Limiter) (matchersStr : String)
    (maxChunksLimit leftChunksLimit numChunks : Int) (s : SeriesData) : Int × Option GErr :=
  if lim.addSeries s then
    let chunksCount : Int := s.chunkSizes.length
    let chunksSize : Int := s.chunkSizes.foldl (fun a c => a + c) 0
    if 0 < maxChunksLimit then
      let actual := wrap32 (numChunks + wrap32 chunksCount)
      if wrap32 leftChunksLimit < actual then
        (actual, some (.maxChunksLimit matchersStr maxChunksLimit))
      else if ¬ lim.addChunkBytes chunksSize then (actual, some (.limiter "AddChunkBytes"))
      else if ¬ lim.addChunks s.chunkSizes.length then (actual, some (.limiter "AddChunks"))
      else (actual, none)
    else
      if ¬ lim.addChunkBytes chunksSize then (numChunks, some (.limiter "AddChunkBytes"))
      else if ¬ lim.addChunks s.chunkSizes.length then (numChunks, some (.limiter "AddChunks"))
      else (numChunks, none)
  else (numChunks, some (.limiter "AddSeries"))

/-- The stream receive loop of one client goroutine: process the frames in
order, then on a clean EOF return the accumulated series, warnings and
queried-block hints as the goroutine's contribution; on a receive error the
goroutine logs and returns nil, discarding everything it accumulated
(`discarded`).  The shared chunk counter keeps any additions made before the
failure. -/
def processFrames (lim : Limiter) (matchersStr : String) (maxChunksLimit leftChunksLimit : Int) :
    List SeriesFrame → Bool → Int → List SeriesData → List String → List ULID →
    Int × TaskOutcome
  | [], cleanEnd, numChunks, mySeries, myWarnings, myQueriedBlocks =>
    (numChunks, if cleanEnd then .contrib mySeries myWarnings myQueriedBlocks else .discarded)
  | .series s :: rest, cleanEnd, numChunks, mySeries, myWarnings, myQueriedBlocks =>
    match processSeriesFrame lim matchersStr maxChunksLimit leftChunksLimit numChunks s with
    | (numChunks2, some e) => (numChunks2, .failed e)
    | (numChunks2, none) =>
      processFrames lim matchersStr maxChunksLimit leftChunksLimit rest cleanEnd numChunks2
        (mySeries ++ [s]) myWarnings myQueriedBlocks
  | .warning w :: rest, cleanEnd, numChunks, mySeries, myWarnings, myQueriedBlocks =>
    processFrames lim matchersStr maxChunksLimit leftChunksLimit rest cleanEnd numChunks
      mySeries (myWarnings ++ [w]) myQueriedBlocks
  | .hints ids :: rest, cleanEnd, numChunks, mySeries, myWarnings, myQueriedBlocks =>
    processFrames lim matchersStr maxChunksLimit leftChunksLimit rest cleanEnd numChunks
      mySeries myWarnings (myQueriedBlocks ++ ids)
  | .badHints msg :: _, _, numChunks, _, _, _ =>
    (numChunks, .failed (.hintsUnmarshal msg))

/-- One client goroutine of `fetchSeriesFromStores`: a stream-open failure is
logged and the goroutine returns nil with nothing stored; otherwise the
receive loop runs. -/
def processClient (lim : Limiter) (matchersStr : String) (maxChunksLimit leftChunksLimit : Int)
    (sd : StreamData) (numChunks : Int) : Int × TaskOutcome :=
  if sd.openOk then
    processFrames lim matchersStr maxChunksLimit leftChunksLimit sd.frames sd.cleanEnd
      numChunks [] [] []
  else (numChunks, .discarded)

/-- The shared accumulators of `fetchSeriesFromStores` (each successful
goroutine appends one series set, its warnings and its queried-block hints
under the mutex). -/
structure FetchAcc where
  seriesSets : List (List SeriesData)
  warnings : List String
  queriedBlocks : List ULID
deriving DecidableEq, Repr

/-- The fan-out of `fetchSeriesFromStores`, serialized client-by-client: the
first goroutine error fails the fetch (the errgroup cancels the rest);
discarded goroutines contribute nothing but their chunk-counter additions
persist. -/
def fetchLoop (lim : Limiter) (matchersStr : String) (maxChunksLimit leftChunksLimit : Int)
    (streams : Client → StreamData) :
    List (Client × List ULID) → Int → FetchAcc → Except GErr (FetchAcc × Int)
  | [], numChunks, acc => .ok (acc, numChunks)
  | cb :: rest, numChunks, acc =>
    match processClient lim matchersStr maxChunksLimit leftChunksLimit (streams cb.1) numChunks with
    | (_, .failed e) => .error e
    | (numChunks2, .discarded) =>
      fetchLoop lim matchersStr maxChunksLimit leftChunksLimit streams rest numChunks2 acc
    | (numChunks2, .contrib mySeries myWarnings myQueriedBlocks) =>
      fetchLoop lim matchersStr maxChunksLimit leftChunksLimit streams rest numChunks2
        ⟨acc.seriesSets ++ [mySeries], acc.warnings ++ myWarnings,
          acc.queriedBlocks ++ myQueriedBlocks⟩

/-- `fetchSeriesFromStores`: run all client sub-queries and return the series
sets, queried blocks, warnings and the final value of the shared chunk
counter. -/
def fetchSeriesFromStores (lim : Limiter) (matchersStr : String)
    (maxChunksLimit leftChunksLimit : Int) (streams : Client → StreamData)
    (clients : List (Client × List ULID)) :
    Except GErr (List (List SeriesData) × List ULID × List String × Int) :=
  match fetchLoop lim matchersStr maxChunksLimit leftChunksLimit streams clients 0 ⟨[], [], []⟩ with
  | .error e => .error e
  | .ok (acc, numChunks) => .ok (acc.seriesSets, acc.queriedBlocks, acc.warnings, numChunks)

/-- The accumulators of `selectSorted` that its `queryFunc` closure mutates:
the collected series sets and warnings, and the remaining chunk budget
`leftChunksLimit`. -/
structure SelectState where
  resSeriesSets : List (List SeriesData)
  resWarnings : List String
  leftChunksLimit : Int
deriving DecidableEq, Repr

/-- `selectSorted`'s `queryFunc` closure: fetch series from the stores with
the remaining chunk budget, append the results to the accumulators, and
(when the max-chunks limit is enabled) decrease the remaining budget by the
chunks observed in this attempt. -/
def selectQueryFunc (lim : Limiter) (matchersStr : String) (maxChunksLimit : Int)
    (streams : Nat → Client → StreamData)
    (attempt : Nat) (clients : List (Client × List ULID)) (st : SelectState) :
    Except GErr (List ULID × SelectState) :=
  match fetchSeriesFromStores lim matchersStr maxChunksLimit st.leftChunksLimit
      (streams attempt) clients with
  | .error e => .error e
  | .ok (seriesSets, queriedBlocks, warnings, numChunks) =>
    .ok (queriedBlocks,
      ⟨st.resSeriesSets ++ seriesSets, st.resWarnings ++ warnings,
        if 0 < maxChunksLimit then st.leftChunksLimit - numChunks else st.leftChunksLimit⟩)

/-- The initial accumulator state of `selectSorted`: `leftChunksLimit` starts
at the tenant's configured `MaxChunksPerQuery` limit. -/
def selectSortedInitState (maxChunksLimit : Int) : SelectState := ⟨[], [], maxChunksLimit⟩

/-- UTF-8 encoding of one character, as byte values. -/
def utf8EncodeCharNat (c : Char) : List Nat :=
  let n := c.toNat
  if n < 128 then [n]
  else if n < 2048 then [192 + n / 64, 128 + n % 64]
  else if n < 65536 then [224 + n / 4096, 128 + (n / 64) % 64, 128 + n % 64]
  else [240 + n / 262144, 128 + (n / 4096) % 64, 128 + (n / 64) % 64, 128 + n % 64]

/-- The UTF-8 bytes of a Go string (`[]byte(s)`). -/
def strBytes (s : String) : List Nat :=
  s.data.foldr (fun c acc => utf8EncodeCharNat c ++ acc) []

/-- The FNV-1a 32-bit offset basis used by `fnv.New32a()`. -/
def fnv32aOffsetBasis : Nat := 2166136261

/-- The FNV-1a 32-bit prime. -/
def fnv32aPrime : Nat := 16777619

/-- Feeding a byte sequence to an FNV-1a 32-bit hasher in state `h`:
per byte, XOR then multiply by the prime, in `uint32` arithmetic. -/
def fnv32aUpdate (h : Nat) (bs : List Nat) : Nat :=
  bs.foldl (fun h b => ((h ^^^ b) * fnv32aPrime) % 4294967296) h

/-- `sep` from `ruler.go`: the byte slice of `"/"`. -/
def sepBytes : List Nat := strBytes "/"

/-- The identifying fields of `rulespb.RuleGroupDesc` used by the ownership
check. -/
structure RuleGroupDesc where
  User : String
  Namespace : String
  Name : String
deriving DecidableEq, Repr

/-- A ring instance descriptor (address only, as used here). -/
structure InstanceDesc where
  Addr : String
deriving DecidableEq, Repr

/-- A replication set returned by `ring.Get`. -/
structure ReplicationSet where
  Instances : List InstanceDesc
deriving DecidableEq, Repr

/-- `tokenForGroup` from `ruler.go`: hash user, "/", namespace, "/", name
into an FNV-1a 32-bit hasher and take its sum. -/
def tokenForGroup (g : RuleGroupDesc) : Nat :=
  fnv32aUpdate
    (fnv32aUpdate
      (fnv32aUpdate
        (fnv32aUpdate (fnv32aUpdate fnv32aOffsetBasis (strBytes g.User)) sepBytes)
        (strBytes g.Namespace))
      sepBytes)
    (strBytes g.Name)

/-- `instanceOwnsRuleGroup` from `ruler.go`: look the group's token up in the
ring (modelled as a function from token to replication set or error) and own
the group iff the first instance's address is this instance's address.  The
Go code indexes `Instances[0]` directly; an empty replication set (which
`ring.Get` never returns on success) is modelled with a default empty
address. -/
def instanceOwnsRuleGroup (ringGet : Nat → Except String ReplicationSet)
    (g : RuleGroupDesc) (instanceAddr : String) : Except String Bool :=
  match ringGet (tokenForGroup g) with
  | .error e => .error e
  | .ok rlrs => .ok ((rlrs.Instances.headD ⟨""⟩).Addr == instanceAddr)

/-- Modelled from the spec: `clampTime` (defined elsewhere in the querier
package, not under src/) clamps a time to a bound when the corresponding
limit is configured (positive); for label queries it is called with the
query start time, the max-labels-query-length limit and the bound
`endTime.Add(-maxQueryLength)`, clamping upward (`before = true`: replace
the time when it lies before the bound). -/
def clampTime (t limit clampTo : Int) : Int :=
  if 0 < limit ∧ t < clampTo then clampTo else t

/-- The time-range clamp at the top of `LabelNames` and `LabelValues`:
`minT = clampTime(startTime, maxQueryLength, endTime.Add(-maxQueryLength))`. -/
def labelQueryMinT (minT maxT maxLabelsQueryLength : Int) : Int :=
  clampTime minT maxLabelsQueryLength (maxT - maxLabelsQueryLength)

/-- `LabelNames`: clamp the time range, then run the consistency-checked
query (no query shard for label queries); the clamped min time is what the
block finder and the store-gateways are consulted with. -/
def LabelNamesQuery (maxLabelsQueryLength queryStoreAfter now minT maxT : Int)
    (finder : Int → Int → Except GErr (List Block × List (ULID × Int)))
    (checkFn : List Block → List (ULID × Int) → List ULID → List ULID)
    (getClients : Nat → List ULID → (ULID → List Addr) → Except GErr (List (Client × List ULID)))
    (query : Nat → List (Client × List ULID) → Int → Int → σ → Except GErr (List ULID × σ))
    (s0 : σ) : QccResult σ :=
  queryWithConsistencyCheck queryStoreAfter now
    (labelQueryMinT minT maxT maxLabelsQueryLength) maxT finder none checkFn getClients query s0

/-- `LabelValues`: identical clamp and orchestration as `LabelNames`. -/
def LabelValuesQuery (maxLabelsQueryLength queryStoreAfter now minT maxT : Int)
    (finder : Int → Int → Except GErr (List Block × List (ULID × Int)))
    (checkFn : List Block → List (ULID × Int) → List ULID → List ULID)
    (getClients : Nat → List ULID → (ULID → List Addr) → Except GErr (List (Client × List ULID)))
    (query : Nat → List (Client × List ULID) → Int → Int → σ → Except GErr (List ULID × σ))
    (s0 : σ) : QccResult σ :=
  queryWithConsistencyCheck queryStoreAfter now
    (labelQueryMinT minT maxT maxLabelsQueryLength) maxT finder none checkFn getClients query s0

/-- Concrete environment whose replica selector fails on every call. -/
def envC2W : StoreEnv Unit :=
  ⟨fun _ _ _ => .error (.other "no store-gateway instances left"),
   fun _ _ st => .ok ([], st),
   fun l => l⟩

/-- A concrete loop state with one remaining block. -/
def loopStC2W : LoopSt Unit := ⟨[5], [], [], [], ()⟩

/-- Concrete environment whose replica selector assigns block 0 to the
replica at address "a" twice within a single response, while never assigning
a block to a replica listed for it in the exclusion map it is given. -/
def envBad : StoreEnv Unit :=
  ⟨fun _ _ excl => if "a" ∈ excl 0 then .ok [] else .ok [(⟨"a"⟩, [0, 0])],
   fun _ _ st => .ok ([0], st),
   fun _ => []⟩

/-- Like `envBad` but assigning block 0 to address "a" only once. -/
def envGood : StoreEnv Unit :=
  ⟨fun _ _ excl => if "a" ∈ excl 0 then .ok [] else .ok [(⟨"a"⟩, [0])],
   fun _ _ st => .ok ([0], st),
   fun _ => []⟩

/-- A block finder returning one block with no compactor shard ID. -/
def trivFinder : Int → Int → Except GErr (List Block × List (ULID × Int)) :=
  fun _ _ => .ok ([Block.mk 1 "" 0], [])

/-- A consistency check that never reports missing blocks. -/
def trivCheckFn : List Block → List (ULID × Int) → List ULID → List ULID :=
  fun _ _ _ => []

/-- A replica selector assigning no clients. -/
def trivGetClients : Nat → List ULID → (ULID → List Addr) →
    Except GErr (List (Client × List ULID)) :=
  fun _ _ _ => .ok []

/-- A query function returning no queried blocks. -/
def trivQuery : Nat → List (Client × List ULID) → Int → Int → Unit →
    Except GErr (List ULID × Unit) :=
  fun _ _ _ _ st => .ok ([], st)

/-- A per-query limiter that accepts everything. -/
def limAll : Limiter := ⟨fun _ => true, fun _ => true, fun _ => true⟩

/-- A ring lookup that always returns a single-instance replication set. -/
def ringW : Nat → Except String ReplicationSet := fun _ => .ok ⟨[⟨"addr-1"⟩]⟩

/-- A concrete rule group. -/
def gW : RuleGroupDesc := ⟨"tenant-1", "ns", "grp"⟩

/-- A concrete series with two chunks. -/
def sampleSeries : SeriesData := ⟨[], [10, 20]⟩

theorem parseShardIDLabelValue_lt {s : String} {ci cc : Nat}
    (h : parseShardIDLabelValue s = some (ci, cc)) : ci < cc := by
  unfold parseShardIDLabelValue at h
  split at h
  · split at h
    · split at h
      · split at h
        · injection h with h1
          injection h1 with h2 h3
          subst h2; subst h3; assumption
        · cases h
      · cases h
    · cases h
  · cases h

theorem canBlock_spec (qi qc ci cc : Nat) (hqc : 1 ≤ qc) (hlt : ci < cc) :
    canBlockWithCompactorShardIndexContainQueryShard qi qc ci cc =
      (decide (claimKeepRule qi qc ci cc), decide (qc % cc = 0 ∨ cc % qc = 0)) := by
  have hcc : 1 ≤ cc := Nat.lt_of_le_of_lt (Nat.zero_le ci) hlt
  by_cases hA : qc % cc = 0
  · have hle : cc ≤ qc := Nat.le_of_dvd hqc (Nat.dvd_of_mod_eq_zero hA)
    have hbranch : qc ≥ cc ∧ qc % cc = 0 := ⟨hle, hA⟩
    unfold canBlockWithCompactorShardIndexContainQueryShard
    rw [if_pos hbranch]
    have hiff : claimKeepRule qi qc ci cc ↔ ci = qi % cc := by
      constructor
      · rintro (⟨_, h2⟩ | ⟨hB, h2⟩ | ⟨h1, _⟩)
        · exact h2.symm
        · have heq : cc = qc :=
            Nat.dvd_antisymm (Nat.dvd_of_mod_eq_zero hA) (Nat.dvd_of_mod_eq_zero hB)
          have : ci % qc = ci := Nat.mod_eq_of_lt (heq ▸ hlt)
          rw [this] at h2
          subst h2
          rw [Nat.mod_eq_of_lt hlt]
        · exact absurd hA h1
      · intro h
        exact Or.inl ⟨hA, h.symm⟩
    have h2 : decide (claimKeepRule qi qc ci cc) = decide (ci = qi % cc) := by
      simp [hiff]
    rw [h2]
    simp [hA]
  · by_cases hB : cc % qc = 0
    · have hle : qc ≤ cc := Nat.le_of_dvd hcc (Nat.dvd_of_mod_eq_zero hB)
      unfold canBlockWithCompactorShardIndexContainQueryShard
      rw [if_neg (by rintro ⟨_, h⟩; exact hA h), if_pos ⟨hle, hB⟩]
      have hiff : claimKeepRule qi qc ci cc ↔ qi = ci % qc := by
        constructor
        · rintro (⟨h1, _⟩ | ⟨_, h2⟩ | ⟨_, h1⟩)
          · exact absurd h1 hA
          · exact h2.symm
          · exact absurd hB h1
        · intro h
          exact Or.inr (Or.inl ⟨hB, h.symm⟩)
      have h2 : decide (claimKeepRule qi qc ci cc) = decide (qi = ci % qc) := by
        simp [hiff]
      rw [h2]
      simp [hA, hB]
    · unfold canBlockWithCompactorShardIndexContainQueryShard
      rw [if_neg (by rintro ⟨_, h⟩; exact hA h), if_neg (by rintro ⟨_, h⟩; exact hB h)]
      have hkeep : claimKeepRule qi qc ci cc := Or.inr (Or.inr ⟨hA, hB⟩)
      simp [hkeep, hA, hB]

/-- Claim C1: for every list of candidate blocks and every query shard with
`queryShardCount ≥ 1`, `filterBlocksByShard` keeps exactly the blocks
satisfying the keep rule (blocks with an absent or unparsable compactor shard
ID always kept), in input order, and reports as incompatible exactly the
blocks whose parsed compactor shard count and the query shard count do not
divide each other in either direction. -/
theorem filterBlocksByShard_spec (blocks : List Block) (qi qc : Nat) (hqc : 1 ≤ qc) :
    filterBlocksByShard blocks qi qc =
      (blocks.filter (claimKeepsBlock qi qc), blocks.countP (claimIncompatible qi qc)) := by
  induction blocks with
  | nil => rfl
  | cons b rest ih =>
    unfold filterBlocksByShard
    rw [ih]
    by_cases hemp : b.CompactorShardID = ""
    · have hparse : parseShardIDLabelValue b.CompactorShardID = none := by
        rw [hemp]; rfl
      have hkb : claimKeepsBlock qi qc b = true := by
        unfold claimKeepsBlock; rw [hparse]
      have hic : claimIncompatible qi qc b = false := by
        unfold claimIncompatible; rw [hparse]
      simp [hemp, List.filter_cons, List.countP_cons, hkb, hic]
    · rw [if_neg hemp]
      cases hparse : parseShardIDLabelValue b.CompactorShardID with
      | none =>
        simp [List.filter_cons, List.countP_cons, claimKeepsBlock, claimIncompatible, hparse]
      | some p =>
        obtain ⟨ci, cc⟩ := p
        have hlt : ci < cc := parseShardIDLabelValue_lt hparse
        have hkb : claimKeepsBlock qi qc b = decide (claimKeepRule qi qc ci cc) := by
          unfold claimKeepsBlock; rw [hparse]
        have hic : claimIncompatible qi qc b = decide (¬ qc % cc = 0 ∧ ¬ cc % qc = 0) := by
          unfold claimIncompatible; rw [hparse]
        simp only [canBlock_spec qi qc ci cc hqc hlt, List.filter_cons, List.countP_cons, hkb, hic]
        by_cases hkeep : claimKeepRule qi qc ci cc
        · by_cases hdiv : qc % cc = 0 ∨ cc % qc = 0
          · have hdiv' : ¬ (¬ qc % cc = 0 ∧ ¬ cc % qc = 0) := by tauto
            simp [hkeep, hdiv, hdiv']
          · have hdiv' : ¬ qc % cc = 0 ∧ ¬ cc % qc = 0 := not_or.mp hdiv
            simp [hkeep, hdiv, hdiv']
        · by_cases hdiv : qc % cc = 0 ∨ cc % qc = 0
          · have hdiv' : ¬ (¬ qc % cc = 0 ∧ ¬ cc % qc = 0) := by tauto
            simp [hkeep, hdiv, hdiv']
          · exact absurd (Or.inr (Or.inr (not_or.mp hdiv))) hkeep

/-- Witness for claim C1 at a concrete input: shards `0_of_2`/`1_of_2`, an
unparsable ID, an absent ID and an incompatible `1_of_3` against query shard
`1_of_2`. -/
theorem filterBlocksByShard_spec_witness :
    1 ≤ 2 ∧
      filterBlocksByShard
          [⟨1, "0_of_2", 0⟩, ⟨2, "1_of_2", 0⟩, ⟨3, "junk", 0⟩, ⟨4, "", 0⟩, ⟨5, "1_of_3", 0⟩] 1 2 =
        ([⟨2, "1_of_2", 0⟩, ⟨3, "junk", 0⟩, ⟨4, "", 0⟩, ⟨5, "1_of_3", 0⟩], 1) := by
  refine ⟨by decide, ?_⟩
  rw [filterBlocksByShard_spec _ 1 2 (by decide)]
  decide

/-- Claim C9: filtering with query shard index 0, count 1 is the identity on
any input block list and reports zero incompatible blocks. -/
theorem filterBlocksByShard_identity (blocks : List Block) :
    filterBlocksByShard blocks 0 1 = (blocks, 0) := by
  induction blocks with
  | nil => rfl
  | cons b rest ih =>
    unfold filterBlocksByShard
    rw [ih]
    by_cases hemp : b.CompactorShardID = ""
    · simp [hemp]
    · rw [if_neg hemp]
      cases hparse : parseShardIDLabelValue b.CompactorShardID with
      | none => simp
      | some p =>
        obtain ⟨ci, cc⟩ := p
        have hlt : ci < cc := parseShardIDLabelValue_lt hparse
        have hkeep : claimKeepRule 0 1 ci cc := Or.inr (Or.inl ⟨Nat.mod_one cc, Nat.mod_one ci⟩)
        simp [canBlock_spec 0 1 ci cc (by decide) hlt, hkeep, Nat.mod_one]

theorem filterBlocksByShard_cons (b : Block) (rest : List Block) (qi qc : Nat) :
    filterBlocksByShard (b :: rest) qi qc =
      (let tailRes := filterBlocksByShard rest qi qc
       if b.CompactorShardID = "" then (b :: tailRes.1, tailRes.2)
       else
         match parseShardIDLabelValue b.CompactorShardID with
         | none => (b :: tailRes.1, tailRes.2)
         | some (ci, cc) =>
           let rd := canBlockWithCompactorShardIndexContainQueryShard qi qc ci cc
           let incompatibleBlocks := if rd.2 then tailRes.2 else tailRes.2 + 1
           if rd.1 then (b :: tailRes.1, incompatibleBlocks)
           else (tailRes.1, incompatibleBlocks)) := rfl

/-- Claim C10: a block whose compactor shard ID is non-empty but unparsable is
kept by `filterBlocksByShard` wherever it appears and contributes nothing to
the incompatible count. -/
theorem filterBlocksByShard_unparsable (b : Block) (qi qc : Nat)
    (hne : b.CompactorShardID ≠ "")
    (hparse : parseShardIDLabelValue b.CompactorShardID = none) :
    ∀ pre post : List Block,
      filterBlocksByShard (pre ++ b :: post) qi qc =
        ((filterBlocksByShard pre qi qc).1 ++ b :: (filterBlocksByShard post qi qc).1,
          (filterBlocksByShard pre qi qc).2 + (filterBlocksByShard post qi qc).2) := by
  intro pre post
  induction pre with
  | nil =>
    simp only [List.nil_append]
    have h0 : filterBlocksByShard [] qi qc = ([], 0) := rfl
    rw [h0, filterBlocksByShard_cons, if_neg hne, hparse]
    simp
  | cons a pre ih =>
    simp only [List.cons_append]
    rw [filterBlocksByShard_cons, ih, filterBlocksByShard_cons a pre qi qc]
    by_cases hemp : a.CompactorShardID = ""
    · simp [hemp]
    · simp only [if_neg hemp]
      cases hpa : parseShardIDLabelValue a.CompactorShardID with
      | none => simp
      | some p =>
        obtain ⟨ci, cc⟩ := p
        simp only [hpa]
        cases hrd : canBlockWithCompactorShardIndexContainQueryShard qi qc ci cc with
        | mk r d => cases r <;> cases d <;> simp [hrd] <;> omega

/-- Witness for claim C10: the unparsable block `junk` survives filtering with
query shard `1_of_2` while a parsable `0_of_2` neighbour is dropped, and the
incompatible count stays 0. -/
theorem filterBlocksByShard_unparsable_witness :
    filterBlocksByShard [⟨1, "0_of_2", 0⟩, ⟨9, "junk", 0⟩, ⟨2, "", 0⟩] 1 2 =
      ([⟨9, "junk", 0⟩, ⟨2, "", 0⟩], 0) := by
  have h := filterBlocksByShard_unparsable ⟨9, "junk", 0⟩ 1 2 (by decide) (by decide)
    [⟨1, "0_of_2", 0⟩] [⟨2, "", 0⟩]
  have hsplit : ([⟨1, "0_of_2", 0⟩, ⟨9, "junk", 0⟩, ⟨2, "", 0⟩] : List Block) =
      [⟨1, "0_of_2", 0⟩] ++ ⟨9, "junk", 0⟩ :: [⟨2, "", 0⟩] := rfl
  rw [hsplit, h]
  decide

theorem queryLoop_clients_error (env : StoreEnv σ) (fuel attempt : Nat) (s : LoopSt σ)
    (e : GErr) (h : env.getClients attempt s.remaining (exclusionOf s.attempted) = .error e) :
    queryLoop env (fuel + 1) attempt s =
      if 1 < attempt then .consistencyFailed s.remaining s else .clientsError e s := by
  simp only [queryLoop, h]

theorem queryLoop_congr (env env' : StoreEnv σ) (hcheck : env.check = env'.check) :
    ∀ fuel attempt (s : LoopSt σ),
      (∀ a, attempt ≤ a → a < attempt + fuel →
          env.getClients a = env'.getClients a ∧ env.query a = env'.query a) →
      queryLoop env fuel attempt s = queryLoop env' fuel attempt s := by
  intro fuel
  induction fuel with
  | zero => intro attempt s _; rfl
  | succ fuel ih =>
    intro attempt s hagree
    have h0 := hagree attempt (Nat.le_refl _) (by omega)
    cases hc : env'.getClients attempt s.remaining (exclusionOf s.attempted) with
    | error e => simp only [queryLoop, h0.1, h0.2, hcheck, hc]
    | ok clients =>
      cases hq : env'.query attempt clients s.qstate with
      | error e => simp only [queryLoop, h0.1, h0.2, hcheck, hc, hq]
      | ok p =>
        obtain ⟨queriedBlocks, qstate⟩ := p
        simp only [queryLoop, h0.1, h0.2, hcheck, hc, hq]
        split
        · rfl
        · exact ih (attempt + 1) _ (fun a ha1 ha2 => hagree a (by omega) (by omega))

theorem queryLoop_consistencyFailed_inv (env : StoreEnv σ) :
    ∀ fuel attempt (s : LoopSt σ) m fin,
      1 ≤ attempt →
      (fuel = 0 → 2 ≤ attempt) →
      (2 ≤ attempt → s.remaining = env.check s.resQueried ∧ s.remaining ≠ []) →
      queryLoop env fuel attempt s = .consistencyFailed m fin →
      m = env.check fin.resQueried ∧ m ≠ [] := by
  intro fuel
  induction fuel with
  | zero =>
    intro attempt s m fin hatt h0 hinv heq
    have hi := hinv (h0 rfl)
    simp only [queryLoop] at heq
    cases heq
    exact ⟨hi.1, hi.2⟩
  | succ fuel ih =>
    intro attempt s m fin hatt h0 hinv heq
    cases hc : env.getClients attempt s.remaining (exclusionOf s.attempted) with
    | error e =>
      simp only [queryLoop, hc] at heq
      split at heq
      · cases heq
        have hi := hinv (by omega)
        exact ⟨hi.1, hi.2⟩
      · cases heq
    | ok clients =>
      cases hq : env.query attempt clients s.qstate with
      | error e =>
        simp only [queryLoop, hc, hq] at heq
        cases heq
      | ok p =>
        obtain ⟨queriedBlocks, qstate⟩ := p
        simp only [queryLoop, hc, hq] at heq
        split at heq
        · cases heq
        · rename_i hne
          refine ih (attempt + 1) _ m fin (by omega) (fun _ => by omega) ?_ heq
          intro _
          refine ⟨rfl, ?_⟩
          simp only [List.isEmpty_eq_true] at hne
          exact hne

/-- Claim C2: the retry loop of `queryWithConsistencyCheck` performs at most
`maxFetchSeriesAttempts = 3` attempts (its outcome depends only on the
collaborators' behaviour at attempts 1 to 3); a `GetClientsFor` failure on
attempt 1 returns that error to the caller unchanged; a `GetClientsFor`
failure on any attempt after the first stops retrying, keeping the loop
state (accumulated results) as it was; and every consistency-check-failed
outcome carries a non-empty missing set that is exactly the consistency
check of all queried blocks accumulated in the returned state. -/
theorem queryWithConsistencyCheck_retry_semantics (env : StoreEnv σ) (s : LoopSt σ) :
    (∀ e, env.getClients 1 s.remaining (exclusionOf s.attempted) = .error e →
        queryLoop env maxFetchSeriesAttempts 1 s = .clientsError e s) ∧
    (∀ fuel attempt (t : LoopSt σ) e, 2 ≤ attempt →
        env.getClients attempt t.remaining (exclusionOf t.attempted) = .error e →
        queryLoop env (fuel + 1) attempt t = .consistencyFailed t.remaining t) ∧
    (∀ env' : StoreEnv σ, env.check = env'.check →
        (∀ a, 1 ≤ a → a ≤ maxFetchSeriesAttempts →
            env.getClients a = env'.getClients a ∧ env.query a = env'.query a) →
        queryLoop env maxFetchSeriesAttempts 1 s = queryLoop env' maxFetchSeriesAttempts 1 s) ∧
    (∀ m fin, queryLoop env maxFetchSeriesAttempts 1 s = .consistencyFailed m fin →
        m = env.check fin.resQueried ∧ m ≠ []) := by
  refine ⟨?_, ?_, ?_, ?_⟩
  · intro e h
    rw [show maxFetchSeriesAttempts = 2 + 1 from rfl, queryLoop_clients_error env 2 1 s e h]
    simp
  · intro fuel attempt t e h2 h
    rw [queryLoop_clients_error env fuel attempt t e h, if_pos (by omega)]
  · intro env' hcheck hagree
    exact queryLoop_congr env env' hcheck maxFetchSeriesAttempts 1 s
      (fun a h1 h2 => hagree a h1 (by omega))
  · intro m fin heq
    exact queryLoop_consistencyFailed_inv env maxFetchSeriesAttempts 1 s m fin (by omega)
      (by intro h; cases h) (by omega) heq

/-- Witness for claim C2: a selector that fails on attempt 1 has its error
returned unchanged. -/
theorem queryWithConsistencyCheck_retry_semantics_witness :
    queryLoop envC2W maxFetchSeriesAttempts 1 loopStC2W =
      .clientsError (.other "no store-gateway instances left") loopStC2W :=
  (queryWithConsistencyCheck_retry_semantics envC2W loopStC2W).1 _ rfl

/-- Claim C4: with a positive `queryStoreAfter`, the max time is replaced by
`min maxT (now - queryStoreAfter)` before the block finder is consulted; if
the clamped max time falls strictly below the min time the request returns
empty immediately — for every finder, shard, checker, replica selector and
query function, so none of them is consulted — observing 0 on the stores-hit
histogram; otherwise the request behaves exactly as the post-clamp body run
on the clamped max time. -/
theorem queryStoreAfter_clamp (queryStoreAfter now minT maxT : Int)
    (finder : Int → Int → Except GErr (List Block × List (ULID × Int)))
    (shard : Option (Nat × Nat))
    (checkFn : List Block → List (ULID × Int) → List ULID → List ULID)
    (getClients : Nat → List ULID → (ULID → List Addr) → Except GErr (List (Client × List ULID)))
    (query : Nat → List (Client × List ULID) → Int → Int → σ → Except GErr (List ULID × σ))
    (s0 : σ) (hqsa : 0 < queryStoreAfter) :
    (min maxT (now - queryStoreAfter) < minT →
        queryWithConsistencyCheck queryStoreAfter now minT maxT finder shard checkFn
          getClients query s0 = .emptyTimeRange 0) ∧
    (¬ min maxT (now - queryStoreAfter) < minT →
        queryWithConsistencyCheck queryStoreAfter now minT maxT finder shard checkFn
          getClients query s0 =
          qccRest minT (min maxT (now - queryStoreAfter)) finder shard checkFn
            getClients query s0) := by
  unfold queryWithConsistencyCheck
  rw [if_pos hqsa]
  constructor
  · intro h
    simp only [if_pos h]
  · intro h
    simp only [if_neg h]

/-- Witness for claim C4: `queryStoreAfter = 10`, `now = 100`, `minT = 95`,
`maxT = 200` clamps the max time to 90, below the min time, so the request
returns empty observing 0 stores hit. -/
theorem queryStoreAfter_clamp_witness :
    queryWithConsistencyCheck 10 100 95 200 trivFinder none trivCheckFn
      trivGetClients trivQuery () = .emptyTimeRange 0 :=
  (queryStoreAfter_clamp 10 100 95 200 trivFinder none trivCheckFn
    trivGetClients trivQuery () (by decide)).1 (by decide)

theorem recordAttempts_append (cs : List (Client × List ULID)) :
    ∀ att : List (ULID × Addr), recordAttempts att cs = att ++ assignmentPairs cs := by
  unfold assignmentPairs
  induction cs with
  | nil => intro att; simp [recordAttempts]
  | cons cb rest ih =>
    intro att
    have h1 : recordAttempts att (cb :: rest) =
        recordAttempts (att ++ cb.2.map (fun blockID => (blockID, cb.1.addr))) rest := rfl
    have h2 : recordAttempts [] (cb :: rest) =
        recordAttempts ([] ++ cb.2.map (fun blockID => (blockID, cb.1.addr))) rest := rfl
    rw [h1, h2, ih, ih ([] ++ cb.2.map (fun blockID => (blockID, cb.1.addr)))]
    simp

theorem mem_exclusionOf (att : List (ULID × Addr)) (blockID : ULID) (a : Addr) :
    a ∈ exclusionOf att blockID ↔ (blockID, a) ∈ att := by
  simp only [exclusionOf, List.mem_map, List.mem_filter]
  constructor
  · rintro ⟨⟨b', a'⟩, ⟨hmem, hb⟩, ha⟩
    simp only [decide_eq_true_eq] at hb
    simp only at ha
    subst hb; subst ha
    exact hmem
  · intro h
    exact ⟨(blockID, a), ⟨h, by simp⟩, rfl⟩

theorem queryLoop_attempted_nodup_aux (env : StoreEnv σ)
    (hgood : ∀ a rem excl res, env.getClients a rem excl = .ok res →
        (∀ p ∈ assignmentPairs res, p.2 ∉ excl p.1) ∧ (assignmentPairs res).Nodup) :
    ∀ fuel attempt (s : LoopSt σ), s.attempted.Nodup →
      ∀ fin, finalState (queryLoop env fuel attempt s) = some fin → fin.attempted.Nodup := by
  intro fuel
  induction fuel with
  | zero =>
    intro attempt s hs fin hfin
    simp only [queryLoop, finalState] at hfin
    cases hfin
    exact hs
  | succ fuel ih =>
    intro attempt s hs fin hfin
    cases hc : env.getClients attempt s.remaining (exclusionOf s.attempted) with
    | error e =>
      simp only [queryLoop, hc] at hfin
      split at hfin <;> (simp only [finalState] at hfin; cases hfin; exact hs)
    | ok clients =>
      have hresp := hgood attempt s.remaining (exclusionOf s.attempted) clients hc
      have hnodup2 : (recordAttempts s.attempted clients).Nodup := by
        rw [recordAttempts_append]
        rw [List.nodup_append]
        refine ⟨hs, hresp.2, ?_⟩
        intro p hp1 hp2
        exact hresp.1 p hp2 ((mem_exclusionOf s.attempted p.1 p.2).mpr hp1)
      cases hq : env.query attempt clients s.qstate with
      | error e =>
        simp only [queryLoop, hc, hq, finalState] at hfin
        cases hfin
        exact hs
      | ok p =>
        obtain ⟨queriedBlocks, qstate⟩ := p
        simp only [queryLoop, hc, hq] at hfin
        split at hfin
        · simp only [finalState] at hfin
          cases hfin
          exact hnodup2
        · exact ih (attempt + 1) _ hnodup2 fin hfin

/-- Claim C6 (amended): after each successful attempt the coordinator
appends, for every (client, blocks) assignment and every assigned block, the
client's address to the attempted map — independently of what the client
hinted — and retries on the missing blocks with that extended map as the
next exclusion set; and provided `GetClientsFor` never assigns a block to a
replica address listed for that block in the exclusion map it is given *and*
never repeats a (block, address) pair within a single response, the
attempted map never records the same (block, address) pair twice. -/
theorem queryWithConsistencyCheck_attempted_nodup (env : StoreEnv σ) :
    (∀ fuel attempt (s : LoopSt σ) clients queriedBlocks qstate,
        env.getClients attempt s.remaining (exclusionOf s.attempted) = .ok clients →
        env.query attempt clients s.qstate = .ok (queriedBlocks, qstate) →
        env.check (s.resQueried ++ queriedBlocks) ≠ [] →
        queryLoop env (fuel + 1) attempt s =
          queryLoop env fuel (attempt + 1)
            ⟨env.check (s.resQueried ++ queriedBlocks), recordAttempts s.attempted clients,
              recordTouched s.touched clients, s.resQueried ++ queriedBlocks, qstate⟩) ∧
    ((∀ a rem excl res, env.getClients a rem excl = .ok res →
          (∀ p ∈ assignmentPairs res, p.2 ∉ excl p.1) ∧ (assignmentPairs res).Nodup) →
      ∀ (s0 : σ) (blocks : List ULID) fin,
        finalState (queryLoop env maxFetchSeriesAttempts 1 ⟨blocks, [], [], [], s0⟩) =
          some fin →
        fin.attempted.Nodup) := by
  constructor
  · intro fuel attempt s clients queriedBlocks qstate hc hq hne
    simp only [queryLoop, hc, hq]
    rw [if_neg]
    simp only [List.isEmpty_eq_true]
    exact hne
  · intro hgood s0 blocks fin hfin
    exact queryLoop_attempted_nodup_aux env hgood maxFetchSeriesAttempts 1
      ⟨blocks, [], [], [], s0⟩ List.nodup_nil fin hfin

/-- Counterexample to claim C6 as stated: `envBad`'s selector never assigns a
block to a replica listed for it in the exclusion map it is given, yet — by
assigning block 0 to the replica at address "a" twice in one response — the
final attempted map records the pair (0, "a") twice. -/
theorem attempted_nodup_counterexample :
    (∀ a rem excl res, envBad.getClients a rem excl = .ok res →
        ∀ p ∈ assignmentPairs res, p.2 ∉ excl p.1) ∧
    ∃ fin, finalState (queryLoop envBad maxFetchSeriesAttempts 1 ⟨[0], [], [], [], ()⟩) =
        some fin ∧ ¬ fin.attempted.Nodup := by
  constructor
  · intro a rem excl res h p hp
    by_cases hm : ("a" : String) ∈ excl 0
    · simp only [envBad, if_pos hm] at h
      cases h
      simp [assignmentPairs, recordAttempts] at hp
    · simp only [envBad, if_neg hm] at h
      cases h
      simp [assignmentPairs, recordAttempts] at hp
      subst hp
      exact hm
  · exact ⟨⟨[0], [(0, "a"), (0, "a")], ["a"], [0], ()⟩, rfl, by decide⟩

/-- Witness for claim C6 (amended) at `envGood`, whose selector satisfies
both hypotheses: the final attempted map has no duplicate pair. -/
theorem queryWithConsistencyCheck_attempted_nodup_witness :
    finalState (queryLoop envGood maxFetchSeriesAttempts 1 ⟨[0], [], [], [], ()⟩) =
      some ⟨[0], [(0, "a")], ["a"], [0], ()⟩ ∧
    (⟨[0], [(0, "a")], ["a"], [0], ()⟩ : LoopSt Unit).attempted.Nodup := by
  refine ⟨rfl, ?_⟩
  refine (queryWithConsistencyCheck_attempted_nodup envGood).2 ?_ () [0]
    ⟨[0], [(0, "a")], ["a"], [0], ()⟩ rfl
  intro a rem excl res h
  by_cases hm : ("a" : String) ∈ excl 0
  · simp only [envGood, if_pos hm] at h
    cases h
    simp [assignmentPairs, recordAttempts]
  · simp only [envGood, if_neg hm] at h
    cases h
    constructor
    · intro p hp
      simp [assignmentPairs, recordAttempts] at hp
      subst hp
      exact hm
    · simp [assignmentPairs, recordAttempts]

theorem wrap32_eq_of_range (n : Int) (h1 : -2147483648 ≤ n) (h2 : n < 2147483648) :
    wrap32 n = n := by
  unfold wrap32
  have ha : (0:Int) ≤ n + 2147483648 := by omega
  have hb : n + 2147483648 < 4294967296 := by omega
  rw [Int.emod_eq_of_lt ha hb]
  ring

/-- Claim C3: `selectSorted` starts the chunk budget at the tenant's
configured `MaxChunksPerQuery` limit, and after each attempt the budget
passed to the next attempt is the previous budget minus the chunks observed
in the attempt (when the limit is enabled); inside an attempt, the first
series frame that pushes the shared cumulative chunk counter strictly above
the remaining budget makes the task fail with the per-tenant max-chunks
limit error; a `queryFunc` error makes the retry loop return that error
immediately on any attempt (never retried); and a zero limit disables the
check: the counter is never advanced and the max-chunks limit error can
never be produced. -/
theorem maxChunksPerQuery_budget (lim : Limiter) (matchersStr : String)
    (maxChunksLimit : Int) (streams : Nat → Client → StreamData) :
    ((selectSortedInitState maxChunksLimit).leftChunksLimit = maxChunksLimit) ∧
    (∀ attempt clients (st : SelectState) seriesSets queriedBlocks warnings numChunks,
        fetchSeriesFromStores lim matchersStr maxChunksLimit st.leftChunksLimit
            (streams attempt) clients = .ok (seriesSets, queriedBlocks, warnings, numChunks) →
        selectQueryFunc lim matchersStr maxChunksLimit streams attempt clients st =
          .ok (queriedBlocks,
            ⟨st.resSeriesSets ++ seriesSets, st.resWarnings ++ warnings,
              if 0 < maxChunksLimit then st.leftChunksLimit - numChunks
              else st.leftChunksLimit⟩)) ∧
    (∀ (left n : Int) (s : SeriesData), 0 < maxChunksLimit → lim.addSeries s = true →
        0 ≤ n → n + (s.chunkSizes.length : Int) < 2147483648 →
        0 ≤ left → left < 2147483648 →
        left < n + (s.chunkSizes.length : Int) →
        processSeriesFrame lim matchersStr maxChunksLimit left n s =
          (n + (s.chunkSizes.length : Int),
            some (.maxChunksLimit matchersStr maxChunksLimit))) ∧
    (∀ (left n n2 : Int) (streams1 : Client → StreamData) (cb : Client × List ULID)
        (rest : List (Client × List ULID)) (acc : FetchAcc) (e : GErr),
        processClient lim matchersStr maxChunksLimit left (streams1 cb.1) n =
          (n2, .failed e) →
        fetchLoop lim matchersStr maxChunksLimit left streams1 (cb :: rest) n acc =
          .error e) ∧
    (∀ (σ : Type) (env : StoreEnv σ) fuel attempt (s : LoopSt σ) clients e,
        env.getClients attempt s.remaining (exclusionOf s.attempted) = .ok clients →
        env.query attempt clients s.qstate = .error e →
        queryLoop env (fuel + 1) attempt s = .queryError e s) ∧
    (maxChunksLimit = 0 → ∀ (left n : Int) (s : SeriesData),
        (processSeriesFrame lim matchersStr maxChunksLimit left n s).1 = n ∧
        ∀ mstr l,
          (processSeriesFrame lim matchersStr maxChunksLimit left n s).2 ≠
            some (.maxChunksLimit mstr l)) := by
  refine ⟨rfl, ?_, ?_, ?_, ?_, ?_⟩
  · intro attempt clients st seriesSets queriedBlocks warnings numChunks h
    simp only [selectQueryFunc, h]
  · intro left n s hmax hadd hn0 hsum hl0 hl1 hlt
    have hc0 : (0:Int) ≤ (s.chunkSizes.length : Int) := by positivity
    have hw1 : wrap32 ((s.chunkSizes.length : Int)) = (s.chunkSizes.length : Int) :=
      wrap32_eq_of_range _ (by omega) (by omega)
    have hw2 : wrap32 (n + (s.chunkSizes.length : Int)) = n + (s.chunkSizes.length : Int) :=
      wrap32_eq_of_range _ (by omega) (by omega)
    have hw3 : wrap32 left = left := wrap32_eq_of_range _ (by omega) (by omega)
    simp only [processSeriesFrame, hadd, if_true, if_pos hmax, hw1, hw2, hw3, if_pos hlt]
  · intro left n n2 streams1 cb rest acc e h
    simp only [fetchLoop, h]
  · intro τ env fuel attempt s clients e hc hq
    simp only [queryLoop, hc, hq]
  · intro h0 left n s
    subst h0
    by_cases h1 : lim.addSeries s <;>
      by_cases h2 : lim.addChunkBytes (s.chunkSizes.foldl (fun a c => a + c) 0) <;>
        by_cases h3 : lim.addChunks s.chunkSizes.length <;>
          simp [processSeriesFrame, h1, h2, h3]

/-- Witness for claim C3: with limit 5, remaining budget 1 and a series of
two chunks, the counter moves from 0 to 2, strictly exceeding the budget,
and the per-tenant max-chunks limit error is produced. -/
theorem maxChunksPerQuery_budget_witness :
    processSeriesFrame limAll "m" 5 1 0 sampleSeries =
      (2, some (.maxChunksLimit "m" 5)) := by
  have h := (maxChunksPerQuery_budget limAll "m" 5
      (fun _ _ => ⟨true, [], true⟩)).2.2.1 1 0 sampleSeries
    (by decide) rfl (by decide) (by decide) (by decide) (by decide) (by decide)
  simpa using h

/-- Claim C5: a replica sub-query that fails to open its stream, or whose
stream errors mid-way after its frames were processed without a task error,
returns no error and contributes nothing: the series, warnings and
queried-block hints it accumulated are discarded for the attempt (only the
shared chunk counter keeps the additions made before the failure), so that —
per the spec-modelled consistency checker — its assigned blocks, hinted by
no other replica, are counted missing, and the retry loop passes exactly the
missing set as the next attempt's remaining blocks. -/
theorem fetchSeries_stream_failure (lim : Limiter) (matchersStr : String)
    (maxChunksLimit leftChunksLimit : Int) :
    (∀ (sd : StreamData) (n : Int), sd.openOk = false →
        processClient lim matchersStr maxChunksLimit leftChunksLimit sd n =
          (n, .discarded)) ∧
    (∀ (frames : List SeriesFrame) (n : Int) ss ws qs,
        (∃ n2 e,
            processFrames lim matchersStr maxChunksLimit leftChunksLimit frames true
                n ss ws qs = (n2, .failed e) ∧
            processFrames lim matchersStr maxChunksLimit leftChunksLimit frames false
                n ss ws qs = (n2, .failed e)) ∨
        (∃ n2 ss2 ws2 qs2,
            processFrames lim matchersStr maxChunksLimit leftChunksLimit frames true
                n ss ws qs = (n2, .contrib ss2 ws2 qs2) ∧
            processFrames lim matchersStr maxChunksLimit leftChunksLimit frames false
                n ss ws qs = (n2, .discarded))) ∧
    (∀ (streams1 : Client → StreamData) (cb : Client × List ULID)
        (rest : List (Client × List ULID)) (n n2 : Int) (acc : FetchAcc),
        processClient lim matchersStr maxChunksLimit leftChunksLimit (streams1 cb.1) n =
          (n2, .discarded) →
        fetchLoop lim matchersStr maxChunksLimit leftChunksLimit streams1 (cb :: rest)
            n acc =
          fetchLoop lim matchersStr maxChunksLimit leftChunksLimit streams1 rest n2 acc) ∧
    (∀ (now ug dg : Int) (expected : List Block) (marks : List (ULID × Int))
        (queried : List ULID) (b : Block),
        b ∈ expected → ¬ b.id ∈ queried → ug ≤ now - b.uploadedAt →
        (∀ markedAt, marks.lookup b.id = some markedAt → now - markedAt < dg) →
        b.id ∈ consistencyCheckModel now ug dg expected marks queried) ∧
    (∀ (σ : Type) (env : StoreEnv σ) fuel attempt (s : LoopSt σ) clients queriedBlocks
        qstate,
        env.getClients attempt s.remaining (exclusionOf s.attempted) = .ok clients →
        env.query attempt clients s.qstate = .ok (queriedBlocks, qstate) →
        env.check (s.resQueried ++ queriedBlocks) ≠ [] →
        queryLoop env (fuel + 1) attempt s =
          queryLoop env fuel (attempt + 1)
            ⟨env.check (s.resQueried ++ queriedBlocks), recordAttempts s.attempted clients,
              recordTouched s.touched clients, s.resQueried ++ queriedBlocks, qstate⟩) := by
  refine ⟨?_, ?_, ?_, ?_, ?_⟩
  · intro sd n h
    simp only [processClient, h]
    simp
  · intro frames
    induction frames with
    | nil =>
      intro n ss ws qs
      exact Or.inr ⟨n, ss, ws, qs, rfl, rfl⟩
    | cons f rest ih =>
      intro n ss ws qs
      cases f with
      | series s =>
        rcases hstep : processSeriesFrame lim matchersStr maxChunksLimit leftChunksLimit
            n s with ⟨n2, eo⟩
        cases eo with
        | some e =>
          left
          exact ⟨n2, e, by simp only [processFrames, hstep], by simp only [processFrames, hstep]⟩
        | none =>
          have := ih n2 (ss ++ [s]) ws qs
          rcases this with ⟨n3, e, h1, h2⟩ | ⟨n3, ss2, ws2, qs2, h1, h2⟩
          · exact Or.inl ⟨n3, e, by simp only [processFrames, hstep]; exact h1,
              by simp only [processFrames, hstep]; exact h2⟩
          · exact Or.inr ⟨n3, ss2, ws2, qs2, by simp only [processFrames, hstep]; exact h1,
              by simp only [processFrames, hstep]; exact h2⟩
      | warning w =>
        have := ih n ss (ws ++ [w]) qs
        rcases this with ⟨n3, e, h1, h2⟩ | ⟨n3, ss2, ws2, qs2, h1, h2⟩
        · exact Or.inl ⟨n3, e, by simp only [processFrames]; exact h1,
            by simp only [processFrames]; exact h2⟩
        · exact Or.inr ⟨n3, ss2, ws2, qs2, by simp only [processFrames]; exact h1,
            by simp only [processFrames]; exact h2⟩
      | hints ids =>
        have := ih n ss ws (qs ++ ids)
        rcases this with ⟨n3, e, h1, h2⟩ | ⟨n3, ss2, ws2, qs2, h1, h2⟩
        · exact Or.inl ⟨n3, e, by simp only [processFrames]; exact h1,
            by simp only [processFrames]; exact h2⟩
        · exact Or.inr ⟨n3, ss2, ws2, qs2, by simp only [processFrames]; exact h1,
            by simp only [processFrames]; exact h2⟩
      | badHints msg =>
        exact Or.inl ⟨n, .hintsUnmarshal msg, rfl, rfl⟩
  · intro streams1 cb rest n n2 acc h
    simp only [fetchLoop, h]
  · intro now ug dg expected marks queried b hmem hq hup hmark
    unfold consistencyCheckModel
    rw [List.mem_map]
    refine ⟨b, ?_, rfl⟩
    rw [List.mem_filter]
    refine ⟨hmem, ?_⟩
    simp only [Bool.and_eq_true, decide_eq_true_eq]
    refine ⟨⟨hq, hup⟩, ?_⟩
    cases hlk : marks.lookup b.id with
    | none => rfl
    | some markedAt => simpa using hmark markedAt hlk
  · intro τ env fuel attempt s clients queriedBlocks qstate hc hq hne
    simp only [queryLoop, hc, hq]
    rw [if_neg]
    simp only [List.isEmpty_eq_true]
    exact hne

/-- Witness for claim C5: a stream that never opens contributes nothing and
returns no error. -/
theorem fetchSeries_stream_failure_witness :
    processClient limAll "m" 0 0 ⟨false, [], true⟩ 7 = (7, .discarded) :=
  (fetchSeries_stream_failure limAll "m" 0 0).1 ⟨false, [], true⟩ 7 rfl

theorem strBytes_append (a b : String) : strBytes (a ++ b) = strBytes a ++ strBytes b := by
  unfold strBytes
  rw [String.data_append]
  induction a.data with
  | nil => simp
  | cons c cs ih => simp only [List.cons_append, List.foldr_cons, ih, List.append_assoc]

theorem fnv32aUpdate_append (h : Nat) (l1 l2 : List Nat) :
    fnv32aUpdate h (l1 ++ l2) = fnv32aUpdate (fnv32aUpdate h l1) l2 := by
  unfold fnv32aUpdate
  exact List.foldl_append _ _ _ _

/-- Claim C7: a ruler replica owns a rule group iff the address of the first
instance of the replication set the ring returns for the group's token
equals the replica's address, where the token is the 32-bit FNV-1a hash of
`tenant ++ "/" ++ namespace ++ "/" ++ name`. -/
theorem instanceOwnsRuleGroup_spec (ringGet : Nat → Except String ReplicationSet)
    (g : RuleGroupDesc) (instanceAddr : String) (rs : ReplicationSet)
    (i : InstanceDesc) (rest : List InstanceDesc)
    (hring : ringGet (tokenForGroup g) = .ok rs)
    (hinst : rs.Instances = i :: rest) :
    tokenForGroup g =
      fnv32aUpdate fnv32aOffsetBasis
        (strBytes (g.User ++ "/" ++ g.Namespace ++ "/" ++ g.Name)) ∧
    (instanceOwnsRuleGroup ringGet g instanceAddr = .ok true ↔ i.Addr = instanceAddr) := by
  constructor
  · simp only [tokenForGroup, strBytes_append, fnv32aUpdate_append]
    rfl
  · unfold instanceOwnsRuleGroup
    rw [hring]
    simp [hinst, beq_iff_eq]

/-- Witness for claim C7: against a ring whose primary owner is `addr-1`, the
replica at `addr-1` owns the group. -/
theorem instanceOwnsRuleGroup_spec_witness :
    instanceOwnsRuleGroup ringW gW "addr-1" = .ok true :=
  (instanceOwnsRuleGroup_spec ringW gW "addr-1" ⟨[⟨"addr-1"⟩]⟩ ⟨"addr-1"⟩ [] rfl rfl).2.mpr rfl

/-- Claim C8: for every LabelNames and LabelValues request with a configured
(positive) max-labels-query-length `L`, the min time is clamped to
`max minT (maxT - L)` before the consistency-checked query — and hence the
block finder — is invoked, so the window still ends at the original `maxT`
and is at most `L` wide. -/
theorem labelQuery_clamp (maxLabelsQueryLength queryStoreAfter now minT maxT : Int)
    (finder : Int → Int → Except GErr (List Block × List (ULID × Int)))
    (checkFn : List Block → List (ULID × Int) → List ULID → List ULID)
    (getClients : Nat → List ULID → (ULID → List Addr) → Except GErr (List (Client × List ULID)))
    (query : Nat → List (Client × List ULID) → Int → Int → σ → Except GErr (List ULID × σ))
    (s0 : σ) (hpos : 0 < maxLabelsQueryLength) :
    labelQueryMinT minT maxT maxLabelsQueryLength =
      max minT (maxT - maxLabelsQueryLength) ∧
    maxT - labelQueryMinT minT maxT maxLabelsQueryLength ≤ maxLabelsQueryLength ∧
    LabelNamesQuery maxLabelsQueryLength queryStoreAfter now minT maxT finder checkFn
        getClients query s0 =
      queryWithConsistencyCheck queryStoreAfter now
        (max minT (maxT - maxLabelsQueryLength)) maxT finder none checkFn
        getClients query s0 ∧
    LabelValuesQuery maxLabelsQueryLength queryStoreAfter now minT maxT finder checkFn
        getClients query s0 =
      queryWithConsistencyCheck queryStoreAfter now
        (max minT (maxT - maxLabelsQueryLength)) maxT finder none checkFn
        getClients query s0 := by
  have h1 : labelQueryMinT minT maxT maxLabelsQueryLength =
      max minT (maxT - maxLabelsQueryLength) := by
    unfold labelQueryMinT clampTime
    split
    · rename_i hcond
      omega
    · rename_i hcond
      rw [not_and_or] at hcond
      rcases hcond with hcond | hcond
      · exact absurd hpos hcond
      · omega
  refine ⟨h1, by omega, ?_, ?_⟩
  · unfold LabelNamesQuery
    rw [h1]
  · unfold LabelValuesQuery
    rw [h1]

/-- Witness for claim C8: length 10 against the window [0, 100] clamps the
min time to 90 = max 0 (100 - 10). -/
theorem labelQuery_clamp_witness :
    labelQueryMinT 0 100 10 = max 0 (100 - 10) ∧
    LabelNamesQuery 10 0 0 0 100 trivFinder trivCheckFn trivGetClients trivQuery () =
      queryWithConsistencyCheck 0 0 (max 0 (100 - 10)) 100 trivFinder none trivCheckFn
        trivGetClients trivQuery () := by
  have h := labelQuery_clamp 10 0 0 0 100 trivFinder trivCheckFn trivGetClients
    trivQuery () (by decide)
  exact ⟨h.1, h.2.2.1⟩
